import Mathlib

/-!
Shallow embedding of the pixel-color core of an embedded 2D graphics
library: the raw fixed-width storage family, the pixel-color capability
contract with its storage extraction, the documented `EpdColor` reference
implementation, the concrete color families, and the channel
re-quantization algorithm used for cross-format conversion.

The embedding follows `src/core/src/pixelcolor/mod.rs` where that file
defines the behaviour (the `PixelColor` trait, the `IntoStorage` blanket
implementation, the documented `EpdColor` example and the documented
`Rgb565` extraction scenario).  The submodules `raw`, `binary_color`,
`gray_color`, `rgb_color` and `conversion` are declared there but their
sources are not at hand; those parts are modelled from the specification
and are marked as such on each definition.
-/

/-- Modelled from the spec: the raw storage family (`RawU1` … `RawU32` of the
missing `raw` module).  A Raw Storage value of width `N` holds a payload
strictly below `2^N`; the payload field is private in the source and only the
masking constructor produces values, so the embedding carries the range
invariant in the structure. -/
structure RawU (N : Nat) where
  inner : Nat
  inner_lt : inner < 2 ^ N

/-- Modelled from the spec: `RawUN::new` of the missing `raw` module masks its
argument to `N` bits — the produced payload is `input mod 2^N` and
construction never fails. -/
def RawU.new (N : Nat) (value : Nat) : RawU N :=
  ⟨value % 2 ^ N, Nat.mod_lt value (Nat.two_pow_pos N)⟩

/-- Modelled from the spec: `RawData::into_inner` of the missing `raw` module
returns the bare payload integer. -/
def RawU.into_inner {N : Nat} (r : RawU N) : Nat :=
  r.inner

/-- Modelled from the spec: the bit count of the backing storage type of a
width-`N` raw value — the smallest of `u8`/`u16`/`u32` able to hold `N` bits.
The embedding models the backing integer type by its bit count. -/
def storageBits (N : Nat) : Nat :=
  if N ≤ 8 then 8 else if N ≤ 16 then 16 else 32

/-- The `PixelColor` trait of `src/core/src/pixelcolor/mod.rs`: a color type
is bound to one raw storage width (`type Raw: RawData`) and converts to and
from it (`From<Self::Raw> + Into<Self::Raw>`). -/
class PixelColor (C : Type) where
  rawWidth : Nat
  toRaw : C → RawU rawWidth
  fromRaw : RawU rawWidth → C

/-- `into_storage` of the blanket `IntoStorage` implementation in
`src/core/src/pixelcolor/mod.rs`: `self.into().into_inner()`. -/
def intoStorage {C : Type} [PixelColor C] (c : C) : Nat :=
  (PixelColor.toRaw c).into_inner

/-- The `EpdColor` example type documented in
`src/core/src/pixelcolor/mod.rs`: a color with the three states `White`,
`Black`, `Red`. -/
inductive EpdColor : Type where
  | White
  | Black
  | Red
  deriving DecidableEq

/-- The numeric discriminant used by `color as u8` in the documented
`From<EpdColor> for RawU2` implementation (declaration order `White`,
`Black`, `Red`). -/
def EpdColor.discriminant : EpdColor → Nat
  | .White => 0
  | .Black => 1
  | .Red => 2

/-- `From<RawU2> for EpdColor` as documented in
`src/core/src/pixelcolor/mod.rs`: raw patterns 0, 1, 2 decode to `White`,
`Black`, `Red`, and the invalid encoding `0b11` falls to the catch-all arm,
which yields `White`. -/
def EpdColor.fromRawU2 (data : RawU 2) : EpdColor :=
  match data.into_inner with
  | 0 => .White
  | 1 => .Black
  | 2 => .Red
  | _ => .White

/-- `From<EpdColor> for RawU2` as documented in
`src/core/src/pixelcolor/mod.rs`: `RawU2::new(color as u8)`. -/
def EpdColor.toRawU2 (color : EpdColor) : RawU 2 :=
  RawU.new 2 color.discriminant

instance : PixelColor EpdColor where
  rawWidth := 2
  toRaw := EpdColor.toRawU2
  fromRaw := EpdColor.fromRawU2

/-- Modelled from the spec: the `BinaryColor` family of the missing
`binary_color` module — one state bit, values `Off` and `On`, raw storage
width 1. -/
inductive BinaryColor : Type where
  | Off
  | On
  deriving DecidableEq

/-- Modelled from the spec: the state bit of a binary color. -/
def BinaryColor.bit : BinaryColor → Nat
  | .Off => 0
  | .On => 1

/-- Modelled from the spec: decoding a width-1 raw value to a binary color
(the `binary_color` module is not among the sources at hand). -/
def BinaryColor.fromRawU1 (data : RawU 1) : BinaryColor :=
  if data.into_inner = 0 then .Off else .On

/-- Modelled from the spec: encoding a binary color as its state bit. -/
def BinaryColor.toRawU1 (color : BinaryColor) : RawU 1 :=
  RawU.new 1 color.bit

instance : PixelColor BinaryColor where
  rawWidth := 1
  toRaw := BinaryColor.toRawU1
  fromRaw := BinaryColor.fromRawU1

/-- Modelled from the spec: the grayscale family `Gray-N` of the missing
`gray_color` module — a single intensity channel of `N` bits, raw storage
width `N`. -/
structure Gray (N : Nat) where
  luma : Nat
  deriving DecidableEq

/-- Modelled from the spec: grayscale construction masks the intensity to the
declared channel width. -/
def Gray.new (N : Nat) (luma : Nat) : Gray N :=
  ⟨luma % 2 ^ N⟩

/-- Modelled from the spec: decoding a width-`N` raw value as a grayscale
intensity. -/
def Gray.fromRaw {N : Nat} (data : RawU N) : Gray N :=
  ⟨data.into_inner⟩

/-- Modelled from the spec: encoding a grayscale intensity as its raw
value. -/
def Gray.toRaw {N : Nat} (g : Gray N) : RawU N :=
  RawU.new N g.luma

instance {N : Nat} : PixelColor (Gray N) where
  rawWidth := N
  toRaw := Gray.toRaw
  fromRaw := Gray.fromRaw

/-- A grayscale value is valid when its intensity fits its declared width. -/
def Gray.valid {N : Nat} (g : Gray N) : Prop :=
  g.luma < 2 ^ N

/-- Modelled from the spec: the RGB family of the missing `rgb_color` module,
with per-channel widths `R`, `G`, `B`; raw storage width `R+G+B`; channels
packed most-significant-first in the order red, green, blue. -/
structure Rgb (R G B : Nat) where
  r : Nat
  g : Nat
  b : Nat
  deriving DecidableEq

/-- Modelled from the spec: RGB construction masks each channel to its
declared width. -/
def Rgb.new (R G B : Nat) (r g b : Nat) : Rgb R G B :=
  ⟨r % 2 ^ R, g % 2 ^ G, b % 2 ^ B⟩

/-- Modelled from the spec: encoding packs the channels
most-significant-first in the order red, green, blue. -/
def Rgb.toRaw {R G B : Nat} (c : Rgb R G B) : RawU (R + G + B) :=
  RawU.new (R + G + B) ((c.r <<< (G + B)) ||| (c.g <<< B) ||| c.b)

/-- Modelled from the spec: decoding extracts the three packed channel
fields. -/
def Rgb.fromRaw {R G B : Nat} (data : RawU (R + G + B)) : Rgb R G B :=
  ⟨(data.into_inner >>> (G + B)) % 2 ^ R,
   (data.into_inner >>> B) % 2 ^ G,
   data.into_inner % 2 ^ B⟩

instance {R G B : Nat} : PixelColor (Rgb R G B) where
  rawWidth := R + G + B
  toRaw := Rgb.toRaw
  fromRaw := Rgb.fromRaw

/-- An RGB value is valid when each channel fits its declared width. -/
def Rgb.valid {R G B : Nat} (c : Rgb R G B) : Prop :=
  c.r < 2 ^ R ∧ c.g < 2 ^ G ∧ c.b < 2 ^ B

/-- Modelled from the spec: the channel re-quantization recursion of the
missing `conversion` module, written with an explicit recursion-depth bound
so the function is structurally recursive (each widening step fills at least
one bit, so `D` steps always suffice; `convertChannel` below supplies that
bound).  Narrowing (`D ≤ S`) keeps the `D` most-significant bits; widening
(`D > S`) left-shifts the source into the top `S` bits and fills the opened
`D − S` low-order bits by replicating the source downward. -/
def convertFuel (S value : Nat) : Nat → Nat → Nat
  | 0, _ => 0
  | fuel + 1, D =>
    if S = 0 then 0
    else if D ≤ S then value >>> (S - D)
    else (value <<< (D - S)) ||| convertFuel S value fuel (D - S)

/-- Modelled from the spec: re-quantize one channel value from a source width
of `S` bits to a destination width of `D` bits. -/
def convertChannel (S D value : Nat) : Nat :=
  convertFuel S value D D

/-- Modelled from the spec: conversion from binary to a grayscale intensity —
`Off` maps to the minimum representable intensity, `On` to the maximum
(all-ones) intensity of the destination width. -/
def BinaryColor.toGray (N : Nat) : BinaryColor → Gray N
  | .Off => Gray.new N 0
  | .On => Gray.new N (2 ^ N - 1)

/-- Modelled from the spec: grayscale-to-grayscale conversion re-quantizes
the single intensity channel. -/
def Gray.convert {S : Nat} (D : Nat) (g : Gray S) : Gray D :=
  ⟨convertChannel S D g.luma⟩

/-- Modelled from the spec: grayscale maps to RGB by applying the same
intensity to all three channels, each independently re-quantized to that
channel's width. -/
def Gray.toRgb {S : Nat} (R G B : Nat) (gray : Gray S) : Rgb R G B :=
  ⟨convertChannel S R gray.luma,
   convertChannel S G gray.luma,
   convertChannel S B gray.luma⟩

/-- The recursion-depth bound of `convertFuel` is irrelevant as long as it is
large enough. -/
theorem convertFuel_congr {S value : Nat} (hS : 0 < S) :
    ∀ fuelA fuelB D, 0 < D → D ≤ fuelA → D ≤ fuelB →
      convertFuel S value fuelA D = convertFuel S value fuelB D := by
  intro fuelA
  induction fuelA with
  | zero =>
    intro fuelB D hD h1 _
    omega
  | succ f ih =>
    intro fuelB D hD h1 h2
    cases fuelB with
    | zero => omega
    | succ f2 =>
      simp only [convertFuel]
      by_cases hle : D ≤ S
      · rw [if_neg (by omega), if_pos hle, if_neg (by omega), if_pos hle]
      · rw [if_neg (by omega), if_neg hle, if_neg (by omega), if_neg hle]
        congr 1
        exact ih f2 (D - S) (by omega) (by omega) (by omega)

/-- Converting to a zero-bit destination yields zero. -/
theorem convertChannel_width_zero (S value : Nat) :
    convertChannel S 0 value = 0 :=
  rfl

/-- Narrowing unfolds to a right shift by `S - D`. -/
theorem convertChannel_of_le {S D value : Nat} (hS : 0 < S) (hD0 : 0 < D)
    (hD : D ≤ S) : convertChannel S D value = value >>> (S - D) := by
  unfold convertChannel
  cases D with
  | zero => omega
  | succ d =>
    simp only [convertFuel]
    rw [if_neg (by omega), if_pos hD]

/-- Widening unfolds to the shift of the source into the top bits, combined
with the recursive replication filling the low-order bits. -/
theorem convertChannel_of_gt {S D value : Nat} (hS : 0 < S) (hD : S < D) :
    convertChannel S D value
      = (value <<< (D - S)) ||| convertChannel S (D - S) value := by
  unfold convertChannel
  cases D with
  | zero => omega
  | succ d =>
    simp only [convertFuel]
    rw [if_neg (by omega), if_neg (by omega)]
    congr 1
    exact convertFuel_congr hS d (d + 1 - S) (d + 1 - S) (by omega) (by omega)
      (by omega)

/-- Channel re-quantization always lands within the destination width. -/
theorem convertChannel_lt {S value : Nat} (hS : 0 < S) (hv : value < 2 ^ S) :
    ∀ D, convertChannel S D value < 2 ^ D := by
  intro D
  induction D using Nat.strong_induction_on with
  | _ D ih =>
    rcases Nat.eq_zero_or_pos D with hD0 | hD0
    · subst hD0
      rw [convertChannel_width_zero]
      exact Nat.one_pos
    · by_cases hD : D ≤ S
      · rw [convertChannel_of_le hS hD0 hD, Nat.shiftRight_eq_div_pow]
        apply Nat.div_lt_of_lt_mul
        calc value < 2 ^ S := hv
          _ = 2 ^ (S - D) * 2 ^ D := by rw [← pow_add]; congr 1; omega
      · push_neg at hD
        rw [convertChannel_of_gt hS hD]
        apply Nat.or_lt_two_pow
        · rw [Nat.shiftLeft_eq]
          calc value * 2 ^ (D - S) < 2 ^ S * 2 ^ (D - S) :=
                mul_lt_mul_of_pos_right hv (Nat.two_pow_pos (D - S))
            _ = 2 ^ D := by rw [← pow_add]; congr 1; omega
        · exact lt_of_lt_of_le (ih (D - S) (by omega))
            (Nat.pow_le_pow_right (by norm_num) (by omega))

/-- Bit-level characterization of re-quantization: every result bit is a copy
of a source bit, with the source pattern replicated downward from the
most-significant bit of the destination. -/
theorem convertChannel_testBit {S value : Nat} (hS : 0 < S)
    (hv : value < 2 ^ S) :
    ∀ D i, i < D →
      (convertChannel S D value).testBit i
        = value.testBit (S - 1 - (D - 1 - i) % S) := by
  intro D
  induction D using Nat.strong_induction_on with
  | _ D ih =>
    intro i hi
    by_cases hD : D ≤ S
    · rw [convertChannel_of_le hS (by omega) hD, Nat.testBit_shiftRight]
      congr 1
      rw [Nat.mod_eq_of_lt (show D - 1 - i < S by omega)]
      omega
    · push_neg at hD
      rw [convertChannel_of_gt hS hD, Nat.testBit_or]
      by_cases hi2 : i < D - S
      · have h1 : (value <<< (D - S)).testBit i = false := by
          rw [Nat.testBit_shiftLeft]
          simp [show ¬(i ≥ D - S) by omega]
        rw [h1, Bool.false_or, ih (D - S) (by omega) i hi2]
        congr 1
        rw [show D - 1 - i = (D - S - 1 - i) + S by omega, Nat.add_mod_right]
      · have h2 : (convertChannel S (D - S) value).testBit i = false := by
          apply Nat.testBit_lt_two_pow
          exact lt_of_lt_of_le (convertChannel_lt hS hv (D - S))
            (Nat.pow_le_pow_right (by norm_num) (by omega))
        rw [h2, Bool.or_false, Nat.testBit_shiftLeft]
        simp only [ge_iff_le, show D - S ≤ i by omega, decide_True,
          Bool.true_and]
        congr 1
        rw [Nat.mod_eq_of_lt (show D - 1 - i < S by omega)]
        omega

/-- The all-zero source converts to the all-zero destination value. -/
theorem convertChannel_zero {S : Nat} (hS : 0 < S) (D : Nat) :
    convertChannel S D 0 = 0 := by
  apply Nat.eq_of_testBit_eq
  intro i
  rw [Nat.zero_testBit]
  by_cases hi : i < D
  · rw [convertChannel_testBit hS (Nat.two_pow_pos S) D i hi, Nat.zero_testBit]
  · exact Nat.testBit_lt_two_pow
      (lt_of_lt_of_le (convertChannel_lt hS (Nat.two_pow_pos S) D)
        (Nat.pow_le_pow_right (by norm_num) (by omega)))

/-- The all-ones source converts to the all-ones destination value. -/
theorem convertChannel_ones {S : Nat} (hS : 0 < S) (D : Nat) :
    convertChannel S D (2 ^ S - 1) = 2 ^ D - 1 := by
  have hv : 2 ^ S - 1 < 2 ^ S := by
    have := Nat.two_pow_pos S
    omega
  apply Nat.eq_of_testBit_eq
  intro i
  rw [Nat.testBit_two_pow_sub_one]
  by_cases hi : i < D
  · rw [convertChannel_testBit hS hv D i hi, Nat.testBit_two_pow_sub_one]
    simp [show S - 1 - (D - 1 - i) % S < S by omega, hi]
  · rw [Nat.testBit_lt_two_pow
      (lt_of_lt_of_le (convertChannel_lt hS hv D)
        (Nat.pow_le_pow_right (by norm_num) (by omega)))]
    simp [hi]

/-- Two packed fields stay below the combined width. -/
theorem packed_lt {m n a b : Nat} (ha : a < 2 ^ m) (hb : b < 2 ^ n) :
    a * 2 ^ n + b < 2 ^ (m + n) := by
  have h1 : a * 2 ^ n + b < (a + 1) * 2 ^ n := by
    rw [Nat.succ_mul]
    omega
  have h2 : (a + 1) * 2 ^ n ≤ 2 ^ m * 2 ^ n :=
    Nat.mul_le_mul_right _ (by omega)
  rw [pow_add]
  omega

/-- Packing three disjoint channel fields by shift-or equals the arithmetic
sum of the shifted fields. -/
theorem pack3_eq_add {G B : Nat} (r : Nat) {g b : Nat} (hg : g < 2 ^ G)
    (hb : b < 2 ^ B) :
    (r <<< (G + B)) ||| (g <<< B) ||| b
      = r * 2 ^ (G + B) + (g * 2 ^ B + b) := by
  have hgb : g * 2 ^ B + b < 2 ^ (G + B) := packed_lt hg hb
  have e1 : (g <<< B) ||| b = g * 2 ^ B + b := by
    rw [Nat.shiftLeft_eq, Nat.mul_comm g (2 ^ B)]
    exact (Nat.mul_add_lt_is_or hb g).symm
  rw [Nat.or_assoc, e1, Nat.shiftLeft_eq, Nat.mul_comm r (2 ^ (G + B))]
  exact (Nat.mul_add_lt_is_or hgb r).symm

/-- The three channel fields of a packed RGB word are recovered by shifting
and masking, and the packed word fits the combined width. -/
theorem pack3_unpack {R G B r g b : Nat} (hr : r < 2 ^ R) (hg : g < 2 ^ G)
    (hb : b < 2 ^ B) :
    ((r <<< (G + B)) ||| (g <<< B) ||| b) < 2 ^ (R + G + B)
    ∧ (((r <<< (G + B)) ||| (g <<< B) ||| b) >>> (G + B)) % 2 ^ R = r
    ∧ (((r <<< (G + B)) ||| (g <<< B) ||| b) >>> B) % 2 ^ G = g
    ∧ ((r <<< (G + B)) ||| (g <<< B) ||| b) % 2 ^ B = b := by
  rw [pack3_eq_add r hg hb]
  have hgb : g * 2 ^ B + b < 2 ^ (G + B) := packed_lt hg hb
  have hX : r * 2 ^ (G + B) + (g * 2 ^ B + b)
      = (r * 2 ^ G + g) * 2 ^ B + b := by
    rw [pow_add]
    ring
  refine ⟨?_, ?_, ?_, ?_⟩
  · have h := packed_lt hr hgb
    rw [← Nat.add_assoc R G B] at h
    exact h
  · rw [Nat.shiftRight_eq_div_pow, Nat.mul_comm r (2 ^ (G + B)),
      Nat.mul_add_div (Nat.two_pow_pos (G + B)),
      Nat.div_eq_of_lt hgb, Nat.add_zero, Nat.mod_eq_of_lt hr]
  · rw [hX, Nat.shiftRight_eq_div_pow, Nat.mul_comm (r * 2 ^ G + g) (2 ^ B),
      Nat.mul_add_div (Nat.two_pow_pos B), Nat.div_eq_of_lt hb,
      Nat.add_zero, Nat.add_comm (r * 2 ^ G) g, Nat.add_mul_mod_self_right,
      Nat.mod_eq_of_lt hg]
  · rw [hX, Nat.add_comm ((r * 2 ^ G + g) * 2 ^ B) b,
      Nat.add_mul_mod_self_right, Nat.mod_eq_of_lt hb]

/-- A declared width of at most 32 bits fits in its backing storage width. -/
theorem le_storageBits {N : Nat} (h : N ≤ 32) : N ≤ storageBits N := by
  unfold storageBits
  split
  · omega
  · split <;> omega

/-- Grayscale construction always yields a valid value. -/
theorem Gray.new_luma_valid (N luma : Nat) : (Gray.new N luma).valid :=
  Nat.mod_lt luma (Nat.two_pow_pos N)

/-- RGB construction always yields a valid value. -/
theorem Rgb.new_channels_valid (R G B r g b : Nat) : (Rgb.new R G B r g b).valid :=
  ⟨Nat.mod_lt r (Nat.two_pow_pos R), Nat.mod_lt g (Nat.two_pow_pos G),
   Nat.mod_lt b (Nat.two_pow_pos B)⟩

/-- Decoding the encoding of a valid RGB value recovers the value. -/
theorem Rgb_decode_encode {R G B : Nat} (c : Rgb R G B) (hc : c.valid) :
    Rgb.fromRaw (Rgb.toRaw c) = c := by
  obtain ⟨hr, hg, hb⟩ := hc
  obtain ⟨h1, h2, h3, h4⟩ := pack3_unpack hr hg hb
  have e : Rgb.fromRaw (Rgb.toRaw c)
      = Rgb.mk
          ((((c.r <<< (G + B)) ||| (c.g <<< B) ||| c.b) >>> (G + B)) % 2 ^ R)
          ((((c.r <<< (G + B)) ||| (c.g <<< B) ||| c.b) >>> B) % 2 ^ G)
          (((c.r <<< (G + B)) ||| (c.g <<< B) ||| c.b) % 2 ^ B) := by
    simp only [Rgb.fromRaw, Rgb.toRaw, RawU.into_inner, RawU.new]
    rw [Nat.mod_eq_of_lt h1]
  rw [e, h2, h3, h4]

/-- C1: round-trip law — for every embedded concrete color type and every
value producible by normal construction, decoding the raw storage value
obtained by encoding it yields the value again; in particular for the three
constructible values of the documented `EpdColor` reference
implementation. -/
theorem roundtrip_decode_encode :
    (∀ c : EpdColor, EpdColor.fromRawU2 (EpdColor.toRawU2 c) = c)
    ∧ (∀ c : BinaryColor, BinaryColor.fromRawU1 (BinaryColor.toRawU1 c) = c)
    ∧ (∀ N luma : Nat,
        Gray.fromRaw (Gray.toRaw (Gray.new N luma)) = Gray.new N luma)
    ∧ (∀ R G B r g b : Nat,
        Rgb.fromRaw (Rgb.toRaw (Rgb.new R G B r g b)) = Rgb.new R G B r g b) := by
  refine ⟨fun c => by cases c <;> rfl, fun c => by cases c <;> rfl,
    fun N luma => ?_,
    fun R G B r g b => Rgb_decode_encode _ (Rgb.new_channels_valid R G B r g b)⟩
  show Gray.mk (luma % 2 ^ N % 2 ^ N) = Gray.new N luma
  rw [Nat.mod_mod_of_dvd luma dvd_rfl]
  rfl

/-- C2: `into_storage` returns exactly the bare integer payload of the
color's bound raw storage value — `into_inner` of the color converted to its
raw type — and the result always fits in the backing storage width, the
declared bit width rounded up to 8/16/32 bits. -/
theorem intoStorage_inner_and_width (C : Type) [inst : PixelColor C]
    (hw : inst.rawWidth ≤ 32) (c : C) :
    intoStorage c = RawU.into_inner (PixelColor.toRaw c)
    ∧ intoStorage c < 2 ^ storageBits inst.rawWidth := by
  refine ⟨rfl, ?_⟩
  have h1 : intoStorage c = (PixelColor.toRaw c).inner := rfl
  rw [h1]
  exact lt_of_lt_of_le (PixelColor.toRaw c).inner_lt
    (Nat.pow_le_pow_right (by norm_num) (le_storageBits hw))

theorem intoStorage_inner_and_width_witness :
    intoStorage EpdColor.Red = RawU.into_inner (PixelColor.toRaw EpdColor.Red)
    ∧ intoStorage EpdColor.Red
        < 2 ^ storageBits (@PixelColor.rawWidth EpdColor _) :=
  intoStorage_inner_and_width EpdColor (by decide) EpdColor.Red

/-- C3: widening uses bit replication, not zero-fill — for `D > S` every bit
of the result is the source bit obtained by replicating the source pattern
downward from the destination's most-significant bit; concretely Grayscale-2
`0b11` widens to Grayscale-8 `0b11111111` (255), and `0b10` widens to
`0b10101010` (170). -/
theorem widening_replicates_bits :
    (∀ S D value : Nat, 0 < S → value < 2 ^ S → S < D →
      ∀ i, i < D →
        (convertChannel S D value).testBit i
          = value.testBit (S - 1 - (D - 1 - i) % S))
    ∧ (Gray.convert 8 (Gray.new 2 3)).luma = 255
    ∧ (Gray.convert 8 (Gray.new 2 2)).luma = 170 := by
  refine ⟨fun S D value hS hv _ i hi => convertChannel_testBit hS hv D i hi,
    by decide, by decide⟩

theorem widening_replicates_bits_witness :
    (convertChannel 2 8 2).testBit 0 = Nat.testBit 2 (2 - 1 - (8 - 1 - 0) % 2) :=
  widening_replicates_bits.1 2 8 2 (by decide) (by decide) (by decide) 0
    (by decide)

/-- C4: narrowing takes the `D` most-significant bits — a right shift by
`S − D` — and is monotone: larger source intensities never narrow to smaller
destination intensities. -/
theorem narrowing_msb_and_monotone (S D : Nat) (hS : 0 < S) (hD0 : 0 < D)
    (hD : D ≤ S) :
    (∀ value : Nat, convertChannel S D value = value >>> (S - D))
    ∧ (∀ a b : Nat, a ≤ b → convertChannel S D a ≤ convertChannel S D b) := by
  constructor
  · intro value
    exact convertChannel_of_le hS hD0 hD
  · intro a b hab
    rw [convertChannel_of_le hS hD0 hD, convertChannel_of_le hS hD0 hD,
      Nat.shiftRight_eq_div_pow, Nat.shiftRight_eq_div_pow]
    exact Nat.div_le_div_right hab

theorem narrowing_msb_and_monotone_witness :
    convertChannel 8 2 200 = 200 >>> (8 - 2)
    ∧ convertChannel 8 2 100 ≤ convertChannel 8 2 200 :=
  ⟨(narrowing_msb_and_monotone 8 2 (by decide) (by decide) (by decide)).1 200,
   (narrowing_msb_and_monotone 8 2 (by decide) (by decide) (by decide)).2 100
     200 (by decide)⟩

/-- C5: raw storage masking and range invariant — construction from any
integer keeps the input mod `2^N`, never fails, keeps in-range inputs
verbatim, and every raw storage value's payload is strictly below `2^N`. -/
theorem raw_storage_masking_and_range (N value : Nat) :
    (RawU.new N value).inner = value % 2 ^ N
    ∧ (∀ r : RawU N, r.inner < 2 ^ N)
    ∧ (value < 2 ^ N → (RawU.new N value).inner = value) :=
  ⟨rfl, fun r => r.inner_lt, fun h => Nat.mod_eq_of_lt h⟩

theorem raw_storage_masking_and_range_witness :
    (RawU.new 4 300).inner = 300 % 2 ^ 4
    ∧ (RawU.new 4 300).inner < 2 ^ 4
    ∧ (RawU.new 4 12).inner = 12 :=
  ⟨(raw_storage_masking_and_range 4 300).1,
   (raw_storage_masking_and_range 4 300).2.1 (RawU.new 4 300),
   (raw_storage_masking_and_range 4 12).2.2 (by decide)⟩

/-- C6: an RGB color with channel widths (5,6,5) constructed from channel
values (31, 0, 10) extracts to the 16-bit storage integer
`0b11111_000000_01010`, the documented `Rgb565` scenario. -/
theorem rgb565_into_storage :
    intoStorage (Rgb.new 5 6 5 31 0 10) = 0b1111100000001010 := by
  decide

/-- C7: every conversion path is a total, deterministic, pure function —
channel re-quantization always lands within the destination width, and the
color-level conversion paths map every valid source value to a valid
destination value. -/
theorem conversions_total_valid :
    (∀ S D value : Nat, 0 < S → value < 2 ^ S →
      convertChannel S D value < 2 ^ D)
    ∧ (∀ S D : Nat, 0 < S → ∀ g : Gray S, g.valid → (Gray.convert D g).valid)
    ∧ (∀ S R G B : Nat, 0 < S → ∀ g : Gray S, g.valid →
        (Gray.toRgb R G B g).valid)
    ∧ (∀ N : Nat, ∀ b : BinaryColor, (BinaryColor.toGray N b).valid) := by
  refine ⟨fun S D value hS hv => convertChannel_lt hS hv D,
    fun S D hS g hg => convertChannel_lt hS hg D,
    fun S R G B hS g hg =>
      ⟨convertChannel_lt hS hg R, convertChannel_lt hS hg G,
        convertChannel_lt hS hg B⟩,
    fun N b => ?_⟩
  cases b
  · exact Gray.new_luma_valid N 0
  · exact Gray.new_luma_valid N (2 ^ N - 1)

theorem conversions_total_valid_witness :
    convertChannel 2 8 3 < 2 ^ 8
    ∧ (Gray.convert 8 (Gray.new 2 2)).valid
    ∧ (Gray.toRgb 5 6 5 (Gray.new 8 100)).valid
    ∧ (BinaryColor.toGray 8 BinaryColor.On).valid :=
  ⟨conversions_total_valid.1 2 8 3 (by decide) (by decide),
   conversions_total_valid.2.1 2 8 (by decide) (Gray.new 2 2)
     (Gray.new_luma_valid 2 2),
   conversions_total_valid.2.2.1 8 5 6 5 (by decide) (Gray.new 8 100)
     (Gray.new_luma_valid 8 100),
   conversions_total_valid.2.2.2 8 BinaryColor.On⟩

/-- C8: extremes preserved — converting between any two widths maps the
all-zero source value to the all-zero destination value and the all-ones
source value to the all-ones destination value. -/
theorem extremes_preserved (S D : Nat) (hS : 0 < S) :
    convertChannel S D 0 = 0
    ∧ convertChannel S D (2 ^ S - 1) = 2 ^ D - 1 :=
  ⟨convertChannel_zero hS D, convertChannel_ones hS D⟩

theorem extremes_preserved_witness :
    convertChannel 2 8 0 = 0 ∧ convertChannel 2 8 (2 ^ 2 - 1) = 2 ^ 8 - 1 :=
  extremes_preserved 2 8 (by decide)

/-- C9: Binary `On` converts to the Grayscale-8 maximum intensity 255 and
`Off` to 0; in general binary maps to the all-ones and all-zero intensity of
any destination width. -/
theorem binary_to_gray_extremes :
    (BinaryColor.toGray 8 BinaryColor.On).luma = 255
    ∧ (BinaryColor.toGray 8 BinaryColor.Off).luma = 0
    ∧ (∀ N : Nat, (BinaryColor.toGray N BinaryColor.On).luma = 2 ^ N - 1
        ∧ (BinaryColor.toGray N BinaryColor.Off).luma = 0) := by
  refine ⟨by decide, by decide, fun N => ⟨?_, ?_⟩⟩
  · show (2 ^ N - 1) % 2 ^ N = 2 ^ N - 1
    have := Nat.two_pow_pos N
    exact Nat.mod_eq_of_lt (by omega)
  · show 0 % 2 ^ N = 0
    exact Nat.zero_mod (2 ^ N)

/-- C10: the documented `EpdColor` decode is total over all four 2-bit raw
patterns and never panics — patterns 0, 1, 2 map to White, Black, Red, and
the reserved pattern `0b11` maps to White through the catch-all arm; every
raw pattern decodes to one of the three colors. -/
theorem epd_decode_all_patterns :
    EpdColor.fromRawU2 (RawU.new 2 0) = EpdColor.White
    ∧ EpdColor.fromRawU2 (RawU.new 2 1) = EpdColor.Black
    ∧ EpdColor.fromRawU2 (RawU.new 2 2) = EpdColor.Red
    ∧ EpdColor.fromRawU2 (RawU.new 2 3) = EpdColor.White
    ∧ (∀ r : RawU 2, EpdColor.fromRawU2 r = EpdColor.White
        ∨ EpdColor.fromRawU2 r = EpdColor.Black
        ∨ EpdColor.fromRawU2 r = EpdColor.Red) := by
  refine ⟨rfl, rfl, rfl, rfl, fun r => ?_⟩
  rcases r with ⟨inner, h⟩
  have h4 : inner < 4 := h
  interval_cases inner <;> simp [EpdColor.fromRawU2, RawU.into_inner]
